import Mathlib

/-
  Verification development for the caption/transcript merge engine of the
  tldv-api repository (src/caption_merger.py), plus the spec's time-window
  speaker identity resolver (absent from src/, modelled from the spec).

  Python strings are embedded as `List Char`.  Python floats are embedded as
  exact rationals (ℚ); the similarity scores produced by difflib are rational
  numbers 2*M/T, so comparisons against the thresholds 0.6 and 0.8 are
  modelled exactly.  Character classification (str.lower, \w, \s, isspace)
  is modelled on the ASCII fragment, which is the alphabet of the captions
  and transcripts this program processes.
-/

/-- ASCII model of Python's whitespace class (`\s`, `str.isspace`, `str.strip`). -/
def isSpaceChar (c : Char) : Bool :=
  c == ' ' || c == '\t' || c == '\n' || c == '\r' || c == '\x0b' || c == '\x0c'

/-- ASCII model of Python's word-character class `\w` (letters, digits, underscore). -/
def isWordChar (c : Char) : Bool :=
  c.isAlphanum || c == '_'

/-- ASCII model of `str.lower`, written as an explicit table so that its
idempotence is provable by case splitting. -/
def asciiLower (c : Char) : Char :=
  match c with
  | 'A' => 'a' | 'B' => 'b' | 'C' => 'c' | 'D' => 'd' | 'E' => 'e' | 'F' => 'f'
  | 'G' => 'g' | 'H' => 'h' | 'I' => 'i' | 'J' => 'j' | 'K' => 'k' | 'L' => 'l'
  | 'M' => 'm' | 'N' => 'n' | 'O' => 'o' | 'P' => 'p' | 'Q' => 'q' | 'R' => 'r'
  | 'S' => 's' | 'T' => 't' | 'U' => 'u' | 'V' => 'v' | 'W' => 'w' | 'X' => 'x'
  | 'Y' => 'y' | 'Z' => 'z'
  | c => c

/-- Characters kept by `re.sub(r'[^\w\s]', '', text)`: word characters and whitespace. -/
def keepChar (c : Char) : Bool :=
  isWordChar c || isSpaceChar c

/-- `re.sub(r'\s+', ' ', text)`: each maximal whitespace run becomes one space.
The boolean flag records whether the previous character was whitespace. -/
def collapseWsAux : Bool → List Char → List Char
  | _, [] => []
  | prevSpace, c :: rest =>
    if isSpaceChar c then
      if prevSpace then collapseWsAux true rest
      else ' ' :: collapseWsAux true rest
    else c :: collapseWsAux false rest

def collapseWs (l : List Char) : List Char :=
  collapseWsAux false l

/-- Remove trailing whitespace (the right half of `str.strip`). -/
def dropTrailingSpaces : List Char → List Char
  | [] => []
  | c :: rest =>
    let r := dropTrailingSpaces rest
    if r.isEmpty && isSpaceChar c then [] else c :: r

/-- `str.strip()` on the ASCII whitespace model. -/
def pyStrip (l : List Char) : List Char :=
  dropTrailingSpaces (l.dropWhile isSpaceChar)

/-- `CaptionTranscriptMerger.clean_text` (caption_merger.py lines 39-45):
lowercase, drop punctuation, collapse whitespace runs, strip. -/
def cleanText (l : List Char) : List Char :=
  pyStrip (collapseWs ((l.map asciiLower).filter keepChar))

/-- `str.split()` with no separator: whitespace-delimited words, empties dropped.
The accumulator holds the current word reversed. -/
def pyWordsAux : List Char → List Char → List (List Char)
  | cur, [] => if cur.isEmpty then [] else [cur.reverse]
  | cur, c :: rest =>
    if isSpaceChar c then
      if cur.isEmpty then pyWordsAux [] rest
      else cur.reverse :: pyWordsAux [] rest
    else pyWordsAux (c :: cur) rest

def pyWords (l : List Char) : List (List Char) :=
  pyWordsAux [] l

/-- `' '.join(words)`. -/
def joinSpace : List (List Char) → List Char
  | [] => []
  | [w] => w
  | w :: ws => w ++ ' ' :: joinSpace ws

/-
  difflib.SequenceMatcher, as used by `find_best_match`:
  `SequenceMatcher(None, a, b).ratio()` with no junk.  The autojunk heuristic
  only activates for second sequences of length >= 200; the model below is the
  no-junk algorithm (b2j contains every position of b).  `ratio` is
  2*M/T where M is the total size of the matching blocks found by the
  recursive longest-match decomposition and T the total length.
-/

structure MatchTriple where
  i : Nat
  j : Nat
  size : Nat

/-- Ascending list of positions j in `[blo, bhi)` with `b[j] = c`
(the `b2j` occurrence list restricted to the active window). -/
def occIndices (b : List Char) (c : Char) (blo bhi : Nat) : List Nat :=
  (List.range bhi).filter (fun j => decide (blo ≤ j) && (b.get? j == some c))

/-- Inner loop of `find_longest_match` for one row i: walk the occurrence
positions j in ascending order, building the new run-length table and updating
the best block on strict improvement (`if k > bestsize`). -/
def rowFold (j2len : Nat → Nat) (i : Nat) :
    List Nat → (Nat → Nat) → MatchTriple → (Nat → Nat) × MatchTriple
  | [], acc, best => (acc, best)
  | j :: rest, acc, best =>
    let k := (if j = 0 then 0 else j2len (j - 1)) + 1
    let acc' := fun x => if x = j then k else acc x
    let best' := if best.size < k then ⟨i + 1 - k, j + 1 - k, k⟩ else best
    rowFold j2len i rest acc' best'

/-- Outer loop of `find_longest_match` over the rows i in `[alo, ahi)`.
Each row starts from an empty run-length table (`newj2len = {}`). -/
def flmLoop (a b : List Char) (blo bhi : Nat) :
    List Nat → (Nat → Nat) → MatchTriple → MatchTriple
  | [], _, best => best
  | i :: is, j2len, best =>
    let js := match a.get? i with
      | none => []
      | some c => occIndices b c blo bhi
    let st := rowFold j2len i js (fun _ => 0) best
    flmLoop a b blo bhi is st.1 st.2

/-- The left extension loop of `find_longest_match` (with an empty junk set the
junk-extension passes never fire and are omitted).  Fuel bounds the number of
steps; each step decrements `m.i`, so fuel `m.i` is always sufficient. -/
def extendLeft (a b : List Char) (alo blo : Nat) : Nat → MatchTriple → MatchTriple
  | 0, m => m
  | fuel + 1, m =>
    if alo < m.i && blo < m.j && (a.get? (m.i - 1)).isSome
        && (a.get? (m.i - 1) == b.get? (m.j - 1)) then
      extendLeft a b alo blo fuel ⟨m.i - 1, m.j - 1, m.size + 1⟩
    else m

/-- The right extension loop of `find_longest_match`. -/
def extendRight (a b : List Char) (ahi bhi : Nat) : Nat → MatchTriple → MatchTriple
  | 0, m => m
  | fuel + 1, m =>
    if m.i + m.size < ahi && m.j + m.size < bhi && (a.get? (m.i + m.size)).isSome
        && (a.get? (m.i + m.size) == b.get? (m.j + m.size)) then
      extendRight a b ahi bhi fuel ⟨m.i, m.j, m.size + 1⟩
    else m

/-- `SequenceMatcher.find_longest_match(alo, ahi, blo, bhi)` with no junk. -/
def findLongestMatch (a b : List Char) (alo ahi blo bhi : Nat) : MatchTriple :=
  let base := flmLoop a b blo bhi (List.range' alo (ahi - alo)) (fun _ => 0) ⟨alo, blo, 0⟩
  extendRight a b ahi bhi ahi (extendLeft a b alo blo base.i base)

/-- Total size of the matching blocks of `get_matching_blocks`, computed by the
same recursive decomposition (merging adjacent blocks does not change the total
size, which is all `ratio` reads).  Each recursive call strictly shrinks the
`a`-interval, so fuel `ahi - alo` bounds the recursion depth. -/
def matchTotalAux (a b : List Char) : Nat → Nat → Nat → Nat → Nat → Nat
  | 0, _, _, _, _ => 0
  | fuel + 1, alo, ahi, blo, bhi =>
    let m := findLongestMatch a b alo ahi blo bhi
    if m.size = 0 then 0
    else
      matchTotalAux a b fuel alo m.i blo m.j + m.size
        + matchTotalAux a b fuel (m.i + m.size) ahi (m.j + m.size) bhi

def matchTotal (a b : List Char) : Nat :=
  matchTotalAux a b (a.length + 1) 0 a.length 0 b.length

/-- `SequenceMatcher(None, a, b).ratio()` = 2*M/T (1 when both are empty),
written with `mkRat` so that scores evaluate definitionally. -/
def simScore (a b : List Char) : ℚ :=
  let total := a.length + b.length
  if total = 0 then 1 else mkRat (2 * matchTotal a b) total

/-- The word-span of `transcriptWords` of length `len` starting at `i`,
joined with single spaces (`' '.join(transcript_words[i:i+len])`). -/
def sliceAt (tw : List (List Char)) (len i : Nat) : List Char :=
  joinSpace ((tw.drop i).take len)

/-- The search loop of `find_best_match`: scan candidate start positions,
keeping the first position whose similarity strictly exceeds the best so far
(`if similarity > best_score`). -/
def fbmFold (cc : List Char) (tw : List (List Char)) (len : Nat)
    (l : List Nat) (b : Nat × ℚ) : Nat × ℚ :=
  l.foldl
    (fun best i =>
      let s := simScore cc (sliceAt tw len i)
      if best.2 < s then (i, s) else best)
    b

/-- `CaptionTranscriptMerger.find_best_match` (caption_merger.py lines 47-76).
Scans start positions `range(start_idx, min(start_idx + window, len(tw) - len(cw)))`
starting from `(start_idx, 0.0)`. -/
def findBestMatch (captionText : List Char) (tw : List (List Char))
    (startIdx windowSize : Nat) : Nat × ℚ :=
  let captionClean := cleanText captionText
  let captionWords := pyWords captionClean
  if captionWords.isEmpty then (startIdx, 0)
  else
    let endIdx := min (startIdx + windowSize) (tw.length - captionWords.length)
    fbmFold captionClean tw captionWords.length
      (List.range' startIdx (endIdx - startIdx)) (startIdx, 0)

/-
  A model of the Python values that `json.loads` produces for caption lines.
  JSON integers become `int`, other JSON numbers become `float`, modelled as
  exact rationals (Python's binary-float rounding is not modelled; no claim
  depends on a value where they differ).  `NaN`/`Infinity` literals, accepted
  by Python's json module, are not modelled (treated as unparsable); `\u`
  escapes are decoded code-unit-wise without surrogate-pair combination.
-/

inductive PyJson where
  | null
  | bool (b : Bool)
  | int (n : Int)
  | float (q : ℚ)
  | str (s : List Char)
  | arr (elems : List PyJson)
  | obj (fields : List (List Char × PyJson))

/-- JSON whitespace accepted between tokens by `json.loads`. -/
def skipJsonWs (l : List Char) : List Char :=
  l.dropWhile (fun c => c == ' ' || c == '\t' || c == '\n' || c == '\r')

def digitsToNat (ds : List Char) : Nat :=
  ds.foldl (fun a c => a * 10 + (c.toNat - 48)) 0

/-- The JSON number grammar `(-?(?:0|[1-9]\d*))(\.\d+)?([eE][-+]?\d+)?`: the
match stops (rather than failing) at a malformed fraction or exponent, exactly
like the scanner's regex. -/
def parseNumber (l : List Char) : Option (PyJson × List Char) :=
  let neg := l.head? == some '-'
  let l1 := if neg then l.drop 1 else l
  match l1.head? with
  | none => none
  | some c =>
    if !c.isDigit then none
    else
      let intDs := if c == '0' then ['0'] else l1.takeWhile Char.isDigit
      let l2 := l1.drop intDs.length
      let intV : Nat := digitsToNat intDs
      let fr : Option (List Char × List Char) :=
        match l2 with
        | '.' :: r =>
          let ds := r.takeWhile Char.isDigit
          if ds.isEmpty then none else some (ds, r.drop ds.length)
        | _ => none
      let l3 := match fr with
        | some p => p.2
        | none => l2
      let ex : Option (Int × List Char) :=
        match l3 with
        | e :: r =>
          if e == 'e' || e == 'E' then
            let sr : Int × List Char :=
              match r with
              | '-' :: rr => (-1, rr)
              | '+' :: rr => (1, rr)
              | _ => (1, r)
            let ds := sr.2.takeWhile Char.isDigit
            if ds.isEmpty then none
            else some (sr.1 * (digitsToNat ds : Int), sr.2.drop ds.length)
          else none
        | [] => none
      let l4 := match ex with
        | some p => p.2
        | none => l3
      if fr.isNone && ex.isNone then
        some (.int (if neg then -(intV : Int) else (intV : Int)), l2)
      else
        let eN : Int := match ex with
          | some p => p.1
          | none => 0
        let fDs : Nat := match fr with
          | some p => p.1.length
          | none => 0
        let fN : Nat := match fr with
          | some p => digitsToNat p.1
          | none => 0
        let num : Int := (intV * 10 ^ fDs + fN : Nat)
        let mag : ℚ :=
          if 0 ≤ eN then mkRat (num * 10 ^ eN.toNat) (10 ^ fDs)
          else mkRat num (10 ^ fDs * 10 ^ (-eN).toNat)
        some (.float (if neg then -mag else mag), l4)

def hexVal (c : Char) : Option Nat :=
  if c.isDigit then some (c.toNat - 48)
  else if 'a' ≤ c && c ≤ 'f' then some (c.toNat - 87)
  else if 'A' ≤ c && c ≤ 'F' then some (c.toNat - 55)
  else none

def escChar (e : Char) : Option Char :=
  if e == '"' then some '"'
  else if e == '\\' then some '\\'
  else if e == '/' then some '/'
  else if e == 'b' then some '\x08'
  else if e == 'f' then some '\x0c'
  else if e == 'n' then some '\n'
  else if e == 'r' then some '\r'
  else if e == 't' then some '\t'
  else none

/-- Body of a JSON string after the opening quote; strict mode rejects raw
control characters below 0x20.  Fuel is the remaining input length. -/
def parseStringBody : Nat → List Char → Option (List Char × List Char)
  | 0, _ => none
  | _ + 1, [] => none
  | fuel + 1, c :: rest =>
    if c == '"' then some ([], rest)
    else if c == '\\' then
      match rest with
      | [] => none
      | e :: rest2 =>
        if e == 'u' then
          match rest2 with
          | h1 :: h2 :: h3 :: h4 :: rest3 =>
            match hexVal h1, hexVal h2, hexVal h3, hexVal h4 with
            | some a, some b, some c2, some d =>
              match parseStringBody fuel rest3 with
              | some (s, r) => some (Char.ofNat (((a * 16 + b) * 16 + c2) * 16 + d) :: s, r)
              | none => none
            | _, _, _, _ => none
          | _ => none
        else
          match escChar e with
          | some ec =>
            match parseStringBody fuel rest2 with
            | some (s, r) => some (ec :: s, r)
            | none => none
          | none => none
    else if c.toNat < 32 then none
    else
      match parseStringBody fuel rest with
      | some (s, r) => some (c :: s, r)
      | none => none

/-- Insert a key into an object under construction: a duplicate key keeps its
first position but takes the new value, like Python dict insertion. -/
def insertField : List (List Char × PyJson) → List Char → PyJson → List (List Char × PyJson)
  | [], k, v => [(k, v)]
  | (k', v') :: rest, k, v =>
    if k' == k then (k', v) :: rest else (k', v') :: insertField rest k v

/-- Parser modes: a value, the members of an object (cursor at a key), or the
elements of an array (cursor at a value). -/
inductive PMode where
  | value
  | members (acc : List (List Char × PyJson))
  | elements (acc : List PyJson)

inductive POut where
  | val (j : PyJson)
  | fields (fs : List (List Char × PyJson))
  | elems (es : List PyJson)

/-- Recursive-descent JSON parser (the grammar of `json.loads`), written as a
single function on fuel so that it reduces definitionally.  Every call site
hands the parser whitespace-skipped input. -/
def parseAny : Nat → PMode → List Char → Option (POut × List Char)
  | 0, _, _ => none
  | fuel + 1, .value, l =>
    match l with
    | [] => none
    | c :: r =>
      if c == '\x7b' then
        let r1 := skipJsonWs r
        match r1 with
        | '\x7d' :: r2 => some (.val (.obj []), r2)
        | _ =>
          match parseAny fuel (.members []) r1 with
          | some (.fields fs, rest) => some (.val (.obj fs), rest)
          | _ => none
      else if c == '[' then
        let r1 := skipJsonWs r
        match r1 with
        | ']' :: r2 => some (.val (.arr []), r2)
        | _ =>
          match parseAny fuel (.elements []) r1 with
          | some (.elems es, rest) => some (.val (.arr es), rest)
          | _ => none
      else if c == '"' then
        match parseStringBody r.length r with
        | some (s, rest) => some (.val (.str s), rest)
        | none => none
      else if c == 't' then
        match r with
        | 'r' :: 'u' :: 'e' :: r2 => some (.val (.bool true), r2)
        | _ => none
      else if c == 'f' then
        match r with
        | 'a' :: 'l' :: 's' :: 'e' :: r2 => some (.val (.bool false), r2)
        | _ => none
      else if c == 'n' then
        match r with
        | 'u' :: 'l' :: 'l' :: r2 => some (.val .null, r2)
        | _ => none
      else
        match parseNumber l with
        | some (j, rest) => some (.val j, rest)
        | none => none
  | fuel + 1, .members acc, l =>
    match l with
    | '"' :: r =>
      match parseStringBody r.length r with
      | some (k, rest) =>
        match skipJsonWs rest with
        | ':' :: rest2 =>
          match parseAny fuel .value (skipJsonWs rest2) with
          | some (.val v, rest3) =>
            let acc' := insertField acc k v
            match skipJsonWs rest3 with
            | ',' :: rest5 => parseAny fuel (.members acc') (skipJsonWs rest5)
            | '\x7d' :: rest5 => some (.fields acc', rest5)
            | _ => none
          | _ => none
        | _ => none
      | none => none
    | _ => none
  | fuel + 1, .elements acc, l =>
    match parseAny fuel .value l with
    | some (.val v, rest) =>
      match skipJsonWs rest with
      | ',' :: rest2 => parseAny fuel (.elements (acc ++ [v])) (skipJsonWs rest2)
      | ']' :: rest2 => some (.elems (acc ++ [v]), rest2)
      | _ => none
    | _ => none

/-- `json.loads` on one line: a single JSON value with only whitespace around
it.  At least every second nested parser call consumes a character, so fuel
`2*length + 2` bounds the recursion depth. -/
def jsonLoads (l : List Char) : Option PyJson :=
  let l1 := skipJsonWs l
  match parseAny (2 * l1.length + 2) .value l1 with
  | some (.val v, rest) => if (skipJsonWs rest).isEmpty then some v else none
  | _ => none

/-- The two exception kinds the merge entry point can raise:
`json.JSONDecodeError` from `load_data`, and `AttributeError` from calling
`.get`/`.strip` on a caption value of the wrong type. -/
inductive PyError where
  | jsonDecodeError
  | attributeError
deriving DecidableEq

/-- Split file content into lines.  Python's file iteration keeps the
trailing newline on each line; `json.loads` tolerates surrounding whitespace
and the blank-line filter strips, so dropping the newline is observationally
identical. -/
def splitLinesAux : List Char → List Char → List (List Char)
  | acc, [] => [acc.reverse]
  | acc, c :: rest =>
    if c == '\n' then acc.reverse :: splitLinesAux [] rest
    else splitLinesAux (c :: acc) rest

def splitLines (l : List Char) : List (List Char) :=
  splitLinesAux [] l

/-- `load_data`'s caption half (caption_merger.py line 26):
`[json.loads(line) for line in f if line.strip()]` — the first malformed line
raises `JSONDecodeError`. -/
def loadCaptions (content : List Char) : Except PyError (List PyJson) :=
  ((splitLines content).filter (fun line => !(pyStrip line).isEmpty)).mapM
    (fun line =>
      match jsonLoads line with
      | some j => Except.ok j
      | none => Except.error PyError.jsonDecodeError)

def speakerKey : List Char := "speaker".toList
def textKey : List Char := "text".toList
def timestampKey : List Char := "timestamp".toList
def unknownName : List Char := "Unknown".toList

/-- `dict.get(k, default)` on a parsed JSON object. -/
def objGetD (fl : List (List Char × PyJson)) (k : List Char) (d : PyJson) : PyJson :=
  match fl.find? (fun p => p.1 == k) with
  | some p => p.2
  | none => d

/-- Numeric view used by Python `==`: bool counts as 0/1 and compares equal to
numbers of that value. -/
def jsonToNum : PyJson → Option ℚ
  | .bool b => some (if b then 1 else 0)
  | .int n => some (n : ℚ)
  | .float q => some q
  | _ => none

mutual

/-- Size of a parsed JSON value (1 per node plus 1 per container slot),
used as fuel: it dominates the depth of any simultaneous descent. -/
def jsonSize : PyJson → Nat
  | .null => 1
  | .bool _ => 1
  | .int _ => 1
  | .float _ => 1
  | .str _ => 1
  | .arr xs => 1 + jsonSizeList xs
  | .obj fs => 1 + jsonSizeFields fs

def jsonSizeList : List PyJson → Nat
  | [] => 0
  | x :: xs => 1 + jsonSize x + jsonSizeList xs

def jsonSizeFields : List (List Char × PyJson) → Nat
  | [] => 0
  | f :: fs => 1 + jsonSize f.2 + jsonSizeFields fs

end

/-- Structural equality for containers, fuelled by the structure size.
Divergence from Python noted: dict comparison here is order-sensitive, while
Python's is not; every speaker value the claims compare is a string, where the
model is exact. -/
def jeqFuel : Nat → PyJson → PyJson → Bool
  | 0, _, _ => false
  | fuel + 1, a, b =>
    match jsonToNum a, jsonToNum b with
    | some x, some y => x == y
    | none, none =>
      match a, b with
      | .null, .null => true
      | .str x, .str y => x == y
      | .arr [], .arr [] => true
      | .arr (x :: xs), .arr (y :: ys) =>
          jeqFuel fuel x y && jeqFuel fuel (.arr xs) (.arr ys)
      | .obj [], .obj [] => true
      | .obj ((k, v) :: fs), .obj ((k2, v2) :: gs) =>
          k == k2 && jeqFuel fuel v v2 && jeqFuel fuel (.obj fs) (.obj gs)
      | _, _ => false
    | _, _ => false

/-- Python `==` on caption values (`speaker != current_speaker`). -/
def pyEq (a b : PyJson) : Bool :=
  match jsonToNum a, jsonToNum b with
  | some x, some y => x == y
  | none, none =>
    match a, b with
    | .null, .null => true
    | .str x, .str y => x == y
    | .arr xs, .arr ys =>
        jeqFuel (jsonSize (.arr xs) + jsonSize (.arr ys)) (.arr xs) (.arr ys)
    | .obj fs, .obj gs =>
        jeqFuel (jsonSize (.obj fs) + jsonSize (.obj gs)) (.obj fs) (.obj gs)
    | _, _ => false
  | _, _ => false

def quoteChar : Char := Char.ofNat 39

def joinCommaSep : List (List Char) → List Char
  | [] => []
  | [w] => w
  | w :: ws => w ++ ',' :: ' ' :: joinCommaSep ws

/-- Python `repr` of a caption value, fuelled by structure size.  String
escaping and shortest-round-trip float display are approximated; every value
the output of the claims formats is a plain string, where `fmtValue` below is
exact and never consults this. -/
def pyReprFuel : Nat → PyJson → List Char
  | _, .null => "None".toList
  | _, .bool true => "True".toList
  | _, .bool false => "False".toList
  | _, .int n => (toString n).toList
  | _, .float q => (toString q).toList
  | _, .str s => quoteChar :: s ++ [quoteChar]
  | 0, .arr _ => []
  | 0, .obj _ => []
  | fuel + 1, .arr xs => '[' :: joinCommaSep (xs.map (pyReprFuel fuel)) ++ [']']
  | fuel + 1, .obj fs =>
      '\x7b' :: joinCommaSep (fs.map
        (fun p => quoteChar :: p.1 ++ quoteChar :: ':' :: ' ' :: pyReprFuel fuel p.2))
        ++ ['\x7d']

/-- Python `str(x)` as used in the f-string `f"[{speaker}]"`. -/
def fmtValue (j : PyJson) : List Char :=
  match j with
  | .str s => s
  | _ => pyReprFuel (jsonSize j) j

/-- One `merged_segments` entry (caption_merger.py lines 138-153). -/
structure MergedSegment where
  speaker : PyJson
  text : List Char
  timestamp : PyJson
  confidence : ℚ

/-- The character walk of caption_merger.py lines 118-134: iterate over the
untouched transcript, counting a word boundary at each space preceded by a
non-space, skipping `matchPos` words, then collecting characters of the next
`target` words.  `prev` carries `transcript[char_idx - 1]`. -/
def extractWalkAux (matchPos target : Nat) :
    List Char → Nat → Option Char → List Char → List Char
  | [], _, _, acc => acc.reverse
  | c :: rest, wordIdx, prev, acc =>
    let boundary := isSpaceChar c && (match prev with
      | some p => !isSpaceChar p
      | none => false)
    if wordIdx < matchPos then
      extractWalkAux matchPos target rest (if boundary then wordIdx + 1 else wordIdx)
        (some c) acc
    else if wordIdx < matchPos + target then
      extractWalkAux matchPos target rest (if boundary then wordIdx + 1 else wordIdx)
        (some c) (c :: acc)
    else acc.reverse

/-- `''.join(matched_words).strip()` for the walk above. -/
def extractMatchedText (transcript : List Char) (matchPos target : Nat) : List Char :=
  pyStrip (extractWalkAux matchPos target transcript 0 none [])

/-- `len(self.clean_text(caption_text).split())` (line 111). -/
def captionWordCount (ct : List Char) : Nat :=
  (pyWords (cleanText ct)).length

/-- `matched_text if matched_text else caption_text` (line 140). -/
def matchedTextOr (transcript ct : List Char) (mp wc : Nat) : List Char :=
  let m := extractMatchedText transcript mp wc
  if m.isEmpty then ct else m

/-- The caption loop of `merge` (caption_merger.py lines 93-153).  A non-dict
caption raises `AttributeError` at `caption.get`; a non-string `text` value
raises `AttributeError` at `.strip()`.  The dead locals of lines 114-115
(`clean_transcript`, `clean_words`) are never read and are omitted. -/
def mergeLoop (transcript : List Char) (tw : List (List Char)) (th : ℚ) :
    List PyJson → Nat → Except PyError (List MergedSegment)
  | [], _ => .ok []
  | c :: rest, pos =>
    match c with
    | .obj fl =>
      match objGetD fl textKey (.str []) with
      | .str s =>
        let ct := pyStrip s
        if ct.isEmpty then mergeLoop transcript tw th rest pos
        else
          let mpSim := findBestMatch ct tw pos 50
          if th ≤ mpSim.2 then
            let wc := captionWordCount ct
            Except.map
              (fun segs =>
                { speaker := objGetD fl speakerKey (.str unknownName),
                  text := matchedTextOr transcript ct mpSim.1 wc,
                  timestamp := objGetD fl timestampKey (.str []),
                  confidence := mpSim.2 } :: segs)
              (mergeLoop transcript tw th rest (mpSim.1 + wc))
          else
            Except.map
              (fun segs =>
                { speaker := objGetD fl speakerKey (.str unknownName),
                  text := ct,
                  timestamp := objGetD fl timestampKey (.str []),
                  confidence := mpSim.2 } :: segs)
              (mergeLoop transcript tw th rest pos)
      | _ => .error .attributeError
    | _ => .error .attributeError

/-- `"✓" if confidence >= 0.8 else "~" if confidence >= 0.6 else "?"`
(line 175); the glyph thresholds are fixed, independent of the merge's
`similarity_threshold` parameter. -/
def confidenceIndicator (c : ℚ) : List Char :=
  if mkRat 4 5 ≤ c then ['✓'] else if mkRat 3 5 ≤ c then ['~'] else ['?']

/-- `f"{text} {confidence_indicator}\n"` (line 176). -/
def segmentLine (seg : MergedSegment) : List Char :=
  seg.text ++ ' ' :: confidenceIndicator seg.confidence ++ ['\n']

/-- The bracketed name of `f"\n[{speaker}]:\n"`, without the leading newline. -/
def speakerHeader (spk : PyJson) : List Char :=
  '[' :: fmtValue spk ++ (']' :: ':' :: '\n' :: [])

/-- The output loop of lines 162-176.  `current_speaker` starts as Python
`None`, which coincides with a JSON `null` speaker; it is updated only when a
header is written. -/
def renderSegments : PyJson → List MergedSegment → List Char
  | _, [] => []
  | cur, seg :: rest =>
    if pyEq seg.speaker cur then segmentLine seg ++ renderSegments cur rest
    else '\n' :: speakerHeader seg.speaker ++ segmentLine seg
      ++ renderSegments seg.speaker rest

def sepLine : List Char := List.replicate 80 '='

def bannerText : List Char := "MERGED TRANSCRIPT (Captions + STT)".toList

/-- The fixed header of lines 158-160: separator, banner, separator, blank line. -/
def bannerBlock : List Char :=
  sepLine ++ '\n' :: bannerText ++ '\n' :: sepLine ++ ('\n' :: '\n' :: [])

def renderOutput (segs : List MergedSegment) : List Char :=
  bannerBlock ++ renderSegments .null segs

/-- `CaptionTranscriptMerger.merge` (lines 78-180), with the written file
content made explicit: the result pairs the returned boolean with the output
file's content (`none` when no file is written). -/
def pyMerge (captions : List PyJson) (transcript : List Char) (th : ℚ) :
    Except PyError (Bool × Option (List Char)) :=
  if captions.isEmpty || transcript.isEmpty then .ok (false, none)
  else
    Except.map (fun segs => (true, some (renderOutput segs)))
      (mergeLoop transcript (pyWords (cleanText transcript)) th captions 0)

/-- The two input files of a job's working directory (`none` = file absent). -/
structure FSModel where
  captionsFile : Option (List Char)
  transcriptFile : Option (List Char)

/-- `load_data`'s caption half over the file system: an absent file leaves
`self.captions = []`. -/
def loadCaptionsOpt : Option (List Char) → Except PyError (List PyJson)
  | none => .ok []
  | some content => loadCaptions content

/-- `load_data`'s transcript half: `f.read().strip()`, or `""` when absent. -/
def loadTranscriptOpt : Option (List Char) → List Char
  | none => []
  | some content => pyStrip content

/-- `merge_meeting_transcripts` (lines 182-191): `load_data` then `merge` with
the default threshold 0.6. -/
def mergeMeetingTranscripts (fs : FSModel) :
    Except PyError (Bool × Option (List Char)) :=
  match loadCaptionsOpt fs.captionsFile with
  | .error e => .error e
  | .ok caps => pyMerge caps (loadTranscriptOpt fs.transcriptFile) (mkRat 3 5)

/-- The output file's content after a merge run, `none` when none is written
(also on the exception paths, which occur before the output file is opened). -/
def writtenOutput (r : Except PyError (Bool × Option (List Char))) : Option (List Char) :=
  match r with
  | .ok p => p.2
  | .error _ => none

/-- The boolean the caller observes (`False` collapses the exception case only
for stating claims; the theorems always distinguish it). -/
def successFlag (r : Except PyError (Bool × Option (List Char))) : Bool :=
  match r with
  | .ok p => p.1
  | .error _ => false

def loadOk (r : Except PyError (List PyJson)) : Bool :=
  match r with
  | .ok _ => true
  | .error _ => false

/-- A caption value that the merge loop processes without raising: a JSON
object whose `text` member, when present, is a string. -/
def captionOk : PyJson → Bool
  | .obj fl =>
    match objGetD fl textKey (.str []) with
    | .str _ => true
    | _ => false
  | _ => false

/-
  The time-window speaker identity resolver (spec §4.2).  The similarity-based
  merger above is the only merge strategy present under src/; the resolver is
  modelled from the specification text.
-/

/-- Modelled from the spec: a live caption event as consumed by the
time-window resolver — a display name and an optional relative timestamp in
seconds (a missing timestamp cannot be correlated). -/
structure CaptionEvent where
  speaker : String
  timestamp : Option ℚ

/-- Modelled from the spec: one diarized segment with its anonymous speaker id
and `[start, end]` time range in seconds. -/
structure DiarizedSegment where
  speakerId : String
  start : ℚ
  stop : ℚ
  text : String

/-- Modelled from the spec: "scan segments in order and find the first segment
where `segment.start <= caption.timestamp <= segment.end`". -/
def firstContainingSegment (t : ℚ) (segs : List DiarizedSegment) : Option DiarizedSegment :=
  segs.find? (fun s => decide (s.start ≤ t) && decide (t ≤ s.stop))

/-- A vote table row: candidate display names with their tallies, in
first-vote order. -/
def bumpName : List (String × Nat) → String → List (String × Nat)
  | [], name => [(name, 1)]
  | (n, k) :: rest, name =>
    if n = name then (n, k + 1) :: rest else (n, k) :: bumpName rest name

/-- Modelled from the spec: increment the vote table entry for
`(speaker_id, caption.speaker)`. -/
def addVote : List (String × List (String × Nat)) → String → String →
    List (String × List (String × Nat))
  | [], sid, name => [(sid, [(name, 1)])]
  | (s, row) :: rest, sid, name =>
    if s = sid then (s, bumpName row name) :: rest
    else (s, row) :: addVote rest sid name

/-- Modelled from the spec: one caption's contribution — captions with a
missing or negative timestamp are skipped entirely, otherwise the first
segment containing the timestamp receives one vote for the caption's name. -/
def voteStep (segs : List DiarizedSegment)
    (tb : List (String × List (String × Nat))) (c : CaptionEvent) :
    List (String × List (String × Nat)) :=
  match c.timestamp with
  | none => tb
  | some t =>
    if 0 ≤ t then
      match firstContainingSegment t segs with
      | some s => addVote tb s.speakerId c.speaker
      | none => tb
    else tb

/-- Modelled from the spec: the `SpeakerVoteTable` built fresh per merge. -/
def buildVoteTable (captions : List CaptionEvent) (segs : List DiarizedSegment) :
    List (String × List (String × Nat)) :=
  captions.foldl (voteStep segs) []

/-- Modelled from the spec: the winning display name of one row — highest vote
count, ties broken deterministically as first-seen-with-max-count. -/
def rowWinner : List (String × Nat) → Option String
  | [] => none
  | (n, k) :: rest =>
    some ((rest.foldl (fun best p => if best.2 < p.2 then p else best) (n, k)).1)

/-- Modelled from the spec: the `SpeakerMap` — speaker ids with at least one
vote, mapped to their winning display name. -/
def speakerMap (captions : List CaptionEvent) (segs : List DiarizedSegment) :
    List (String × String) :=
  (buildVoteTable captions segs).filterMap
    (fun row => (rowWinner row.2).map (fun w => (row.1, w)))

/-- The tally a row records for one candidate name (0 when absent). -/
def rowTally : List (String × Nat) → String → Nat
  | [], _ => 0
  | (n, k) :: rest, name => if n = name then k else rowTally rest name

/-- The tally recorded for `(sid, name)`: first matching row, first matching
name entry, 0 when absent. -/
def voteCount : List (String × List (String × Nat)) → String → String → Nat
  | [], _, _ => 0
  | (s, row) :: rest, sid, name =>
    if s = sid then rowTally row name else voteCount rest sid name

/-- Whether one caption votes for `(sid, name)`: non-negative timestamp whose
first containing segment carries `sid`, with the caption naming `name`. -/
def captionVotesFor (segs : List DiarizedSegment) (sid name : String)
    (c : CaptionEvent) : Bool :=
  match c.timestamp with
  | none => false
  | some t =>
    decide (0 ≤ t) &&
      (match firstContainingSegment t segs with
       | some s => s.speakerId == sid && c.speaker == name
       | none => false)

/-! ### Lemmas about the time-window resolver's vote accounting -/

lemma rowTally_bumpName (row : List (String × Nat)) (n0 name : String) :
    rowTally (bumpName row n0) name
      = rowTally row name + (if n0 = name then 1 else 0) := by
  induction row with
  | nil =>
    by_cases h : n0 = name <;> simp [bumpName, rowTally, h]
  | cons p rest ih =>
    obtain ⟨n, k⟩ := p
    by_cases hn : n = n0
    · subst hn
      by_cases hname : n = name <;> simp [bumpName, rowTally, hname]
    · by_cases hname : n = name
      · have hn0 : ¬ n0 = name := fun h => hn (hname.trans h.symm)
        have hn0' : ¬ name = n0 := fun h => hn0 h.symm
        simp [bumpName, rowTally, hn, hname, hn0, hn0']
      · simp [bumpName, rowTally, hn, hname, ih]

lemma voteCount_addVote (tb : List (String × List (String × Nat)))
    (sid0 n0 sid name : String) :
    voteCount (addVote tb sid0 n0) sid name
      = voteCount tb sid name + (if sid0 = sid ∧ n0 = name then 1 else 0) := by
  induction tb with
  | nil =>
    by_cases h : sid0 = sid
    · subst h
      by_cases h2 : n0 = name <;> simp [addVote, voteCount, rowTally, h2]
    · simp [addVote, voteCount, h, fun hc : sid0 = sid ∧ n0 = name => h hc.1]
  | cons p rest ih =>
    obtain ⟨s, row⟩ := p
    by_cases hs0 : s = sid0
    · subst hs0
      by_cases hsid : s = sid
      · subst hsid
        simp [addVote, voteCount, rowTally_bumpName]
      · simp [addVote, voteCount, hsid, fun hc : s = sid ∧ n0 = name => hsid hc.1]
    · have hns : ¬ sid0 = s := fun h => hs0 h.symm
      by_cases hsid : s = sid
      · subst hsid
        simp [addVote, voteCount, hs0, hns, fun hc : sid0 = s ∧ n0 = name => hns hc.1]
      · simp [addVote, voteCount, hs0, hsid, ih]

lemma voteCount_voteStep (segs : List DiarizedSegment)
    (tb : List (String × List (String × Nat))) (c : CaptionEvent)
    (sid name : String) :
    voteCount (voteStep segs tb c) sid name
      = voteCount tb sid name
        + (if captionVotesFor segs sid name c then 1 else 0) := by
  cases h : c.timestamp with
  | none => simp [voteStep, captionVotesFor, h]
  | some t =>
    by_cases ht : (0 : ℚ) ≤ t
    · cases hf : firstContainingSegment t segs with
      | none => simp [voteStep, captionVotesFor, h, hf, ht]
      | some s =>
        simp only [voteStep, captionVotesFor, h, hf, ht, if_true]
        rw [voteCount_addVote]
        simp [ht, beq_iff_eq]
    · simp [voteStep, captionVotesFor, h, ht]

lemma voteCount_foldl (segs : List DiarizedSegment) (sid name : String)
    (captions : List CaptionEvent) :
    ∀ tb, voteCount (captions.foldl (voteStep segs) tb) sid name
      = voteCount tb sid name
        + (captions.filter (captionVotesFor segs sid name)).length := by
  induction captions with
  | nil => simp
  | cons c cs ih =>
    intro tb
    rw [List.foldl_cons, ih, voteCount_voteStep]
    by_cases h : captionVotesFor segs sid name c = true
    · simp [List.filter, h]
      omega
    · simp only [Bool.not_eq_true] at h
      simp [List.filter, h]

/-- C3: the time-window speaker identity resolver exists (modelled from spec
§4.2, as no such code is present under src/): on the spec's unit example —
one caption `{speaker: "Alice", timestamp: 5.0}` and one segment
`{speaker_id: "SPEAKER_00", start: 0.0, end: 10.0}` — it resolves the map
`{"SPEAKER_00": "Alice"}`; and in general every caption event with a
non-negative timestamp contributes exactly one vote, to the first segment in
source order whose `[start, end]` interval contains its timestamp: the tally
of every `(speaker_id, name)` pair equals the number of captions whose first
containing segment carries that id and which bear that name. -/
theorem c3_theorem :
    speakerMap [⟨"Alice", some 5⟩] [⟨"SPEAKER_00", 0, 10, ""⟩]
      = [("SPEAKER_00", "Alice")]
    ∧ ∀ (captions : List CaptionEvent) (segs : List DiarizedSegment)
        (sid name : String),
        voteCount (buildVoteTable captions segs) sid name
          = (captions.filter (captionVotesFor segs sid name)).length := by
  constructor
  · rfl
  · intro captions segs sid name
    unfold buildVoteTable
    rw [voteCount_foldl]
    simp [voteCount]

/-- C6: every emitted segment line carries the glyph computed from that
segment's similarity score alone — the full-confidence glyph exactly when the
score is at least 0.8, the partial glyph exactly when it is at least 0.6 and
below 0.8, and the low-confidence glyph exactly when it is below 0.6 — and the
line written for a segment is its text, a space, that glyph and a newline. -/
theorem c6_theorem :
    (∀ q : ℚ,
      (confidenceIndicator q = ['✓'] ↔ 4 / 5 ≤ q)
      ∧ (confidenceIndicator q = ['~'] ↔ 3 / 5 ≤ q ∧ q < 4 / 5)
      ∧ (confidenceIndicator q = ['?'] ↔ q < 3 / 5))
    ∧ ∀ seg : MergedSegment,
        segmentLine seg
          = seg.text ++ ' ' :: confidenceIndicator seg.confidence ++ ['\n'] := by
  constructor
  · intro q
    unfold confidenceIndicator
    rw [show mkRat 4 5 = 4 / 5 from by norm_num [Rat.mkRat_eq_div],
      show mkRat 3 5 = 3 / 5 from by norm_num [Rat.mkRat_eq_div]]
    split_ifs with h1 h2
    · refine ⟨⟨fun _ => h1, fun _ => rfl⟩,
        ⟨fun h => absurd h (by decide), fun h => absurd h1 (not_le.mpr h.2)⟩,
        ⟨fun h => absurd h (by decide), fun h => absurd h (by linarith)⟩⟩
    · refine ⟨⟨fun h => absurd h (by decide), fun h => absurd h h1⟩,
        ⟨fun _ => ⟨h2, lt_of_not_le h1⟩, fun _ => rfl⟩,
        ⟨fun h => absurd h (by decide), fun h => absurd h (by linarith)⟩⟩
    · refine ⟨⟨fun h => absurd h (by decide), fun h => absurd h (by linarith)⟩,
        ⟨fun h => absurd h (by decide), fun h => absurd h.1 h2⟩,
        ⟨fun _ => lt_of_not_le h2, fun _ => rfl⟩⟩
  · intro seg
    rfl

/-- C6 witness: the three glyphs at the concrete scores 0.9, 0.7 and 0.5. -/
theorem c6_witness :
    confidenceIndicator (9 / 10) = ['✓']
      ∧ confidenceIndicator (7 / 10) = ['~']
      ∧ confidenceIndicator (1 / 2) = ['?'] :=
  ⟨(c6_theorem.1 (9 / 10)).1.mpr (by norm_num),
   (c6_theorem.1 (7 / 10)).2.1.mpr (by norm_num),
   (c6_theorem.1 (1 / 2)).2.2.mpr (by norm_num)⟩

/-- C7 (amended): a speaker header is emitted exactly when the segment's
speaker differs (Python `!=`) from the tracked previous speaker (initially
Python `None`); each header is preceded by a blank line and followed directly
by the segment's text line — text, space, confidence glyph, newline — with no
blank line after the text. -/
theorem c7_theorem (cur : PyJson) (seg : MergedSegment) (rest : List MergedSegment) :
    (pyEq seg.speaker cur = true →
      renderSegments cur (seg :: rest) = segmentLine seg ++ renderSegments cur rest)
    ∧ (pyEq seg.speaker cur = false →
      renderSegments cur (seg :: rest)
        = '\n' :: (speakerHeader seg.speaker
            ++ (segmentLine seg ++ renderSegments seg.speaker rest))) := by
  constructor
  · intro h
    simp [renderSegments, h]
  · intro h
    simp [renderSegments, h]

/-- C7 witness: both branches at concrete segments — a repeated speaker emits
no header, a new speaker emits a newline-preceded header. -/
theorem c7_witness :
    renderSegments (PyJson.str ['A']) [⟨PyJson.str ['A'], ['h', 'i'], PyJson.str [], 1⟩]
      = segmentLine ⟨PyJson.str ['A'], ['h', 'i'], PyJson.str [], 1⟩
        ++ renderSegments (PyJson.str ['A']) []
    ∧ renderSegments PyJson.null [⟨PyJson.str ['B'], ['y', 'o'], PyJson.str [], 0⟩]
      = '\n' :: (speakerHeader (PyJson.str ['B'])
          ++ (segmentLine ⟨PyJson.str ['B'], ['y', 'o'], PyJson.str [], 0⟩
            ++ renderSegments (PyJson.str ['B']) [])) :=
  ⟨(c7_theorem _ _ _).1 (by rfl), (c7_theorem _ _ _).2 (by rfl)⟩

/-- C7 counterexample: the claim says each header is followed by the segment
text and a blank line; rendering one segment yields
`"\n[A]:\nhi ✓\n"` — the blank line precedes the header, and no blank line
follows the text (the output does not end with two newlines). -/
theorem c7_counterexample :
    renderSegments PyJson.null [⟨PyJson.str ['A'], ['h', 'i'], PyJson.str [], 1⟩]
      = '\n' :: '[' :: 'A' :: ']' :: ':' :: '\n' :: 'h' :: 'i' :: ' ' :: '✓' :: ['\n']
    ∧ ¬ ['\n', '\n']
        <:+ renderSegments PyJson.null [⟨PyJson.str ['A'], ['h', 'i'], PyJson.str [], 1⟩] := by
  constructor
  · rfl
  · decide

/-- C8 (amended): every successfully written merged transcript begins with the
fixed banner block of caption_merger.py lines 158-160 — an 80-character `=`
separator line, the banner line `MERGED TRANSCRIPT (Captions + STT)`, another
separator line and a blank line — before the first segment. -/
theorem c8_theorem (caps : List PyJson) (t : List Char) (th : ℚ) (out : List Char)
    (h : pyMerge caps t th = .ok (true, some out)) :
    bannerBlock <+: out := by
  unfold pyMerge at h
  split at h
  · exact absurd h (by simp)
  · cases hm : mergeLoop t (pyWords (cleanText t)) th caps 0 with
    | error e =>
      rw [hm] at h
      exact absurd h (by simp [Except.map])
    | ok segs =>
      rw [hm] at h
      simp only [Except.map, Except.ok.injEq, Prod.mk.injEq, Option.some.injEq] at h
      exact h.2 ▸ ⟨renderSegments .null segs, rfl⟩

set_option maxRecDepth 8000 in
/-- C8 witness: a concrete successful merge whose output starts with the
banner block. -/
theorem c8_witness :
    bannerBlock
      <+: bannerBlock
        ++ ('\n' :: '[' :: 'B' :: ']' :: ':' :: '\n' :: 'y' :: 'o' :: ' ' :: '?' :: ['\n']) :=
  (c8_theorem [PyJson.obj [(speakerKey, PyJson.str ['B']), (textKey, PyJson.str ['y', 'o'])]]
    ['y', 'o'] (mkRat 3 5) _ (by rfl))

set_option maxRecDepth 8000 in
/-- C8 counterexample: a successful merge writes a file whose banner is
`MERGED TRANSCRIPT (Captions + STT)`; the banner text the claim names,
`MERGED AND DIARIZED TRANSCRIPT`, occurs nowhere in the output. -/
theorem c8_counterexample :
    pyMerge [PyJson.obj [(speakerKey, PyJson.str ['C']), (textKey, PyJson.str ['o', 'k'])]]
        ['o', 'k'] (mkRat 3 5)
      = .ok (true, some (bannerBlock
          ++ ('\n' :: '[' :: 'C' :: ']' :: ':' :: '\n' :: 'o' :: 'k' :: ' ' :: '?' :: ['\n'])))
    ∧ ¬ ("MERGED AND DIARIZED TRANSCRIPT".toList
        <:+: bannerBlock
          ++ ('\n' :: '[' :: 'C' :: ']' :: ':' :: '\n' :: 'o' :: 'k' :: ' ' :: '?' :: ['\n'])) := by
  constructor
  · rfl
  · decide

/-- C1 (amended): the merge entry point returns boolean `false` (never an
exception) when the captions file is absent, and likewise when the transcript
file is absent provided the captions file is absent or parses; but when the
captions file contains a line that is not valid JSON, `load_data` raises the
JSON-decode exception and the entry point propagates it instead of returning
`false`. -/
theorem c1_theorem :
    (∀ tf, mergeMeetingTranscripts ⟨none, tf⟩ = .ok (false, none))
    ∧ (∀ cs caps, loadCaptions cs = .ok caps →
        mergeMeetingTranscripts ⟨some cs, none⟩ = .ok (false, none))
    ∧ (∀ cs tf e, loadCaptions cs = .error e →
        mergeMeetingTranscripts ⟨some cs, tf⟩ = .error e) := by
  refine ⟨fun tf => ?_, fun cs caps h => ?_, fun cs tf e h => ?_⟩
  · simp [mergeMeetingTranscripts, loadCaptionsOpt, pyMerge]
  · simp [mergeMeetingTranscripts, loadCaptionsOpt, h, pyMerge, loadTranscriptOpt]
  · simp [mergeMeetingTranscripts, loadCaptionsOpt, h]

/-- C1 witness: the three branches at concrete inputs — captions file absent,
empty captions file with transcript absent, and a non-JSON captions line. -/
theorem c1_witness :
    mergeMeetingTranscripts ⟨none, some ['h', 'i']⟩ = .ok (false, none)
    ∧ mergeMeetingTranscripts ⟨some [], none⟩ = .ok (false, none)
    ∧ mergeMeetingTranscripts ⟨some ['x'], some ['h', 'i']⟩ = .error .jsonDecodeError :=
  ⟨c1_theorem.1 _, c1_theorem.2.1 [] [] (by rfl), c1_theorem.2.2 ['x'] _ _ (by rfl)⟩

/-- C1 counterexample: with both files present but the captions file holding
the single line `not json`, the entry point raises `JSONDecodeError` — it does
not return `false` as the claim states. -/
theorem c1_counterexample :
    mergeMeetingTranscripts ⟨some "not json".toList, some ['h', 'i']⟩
      = .error .jsonDecodeError
    ∧ mergeMeetingTranscripts ⟨some "not json".toList, some ['h', 'i']⟩
      ≠ .ok (false, none) := by
  have h1 : mergeMeetingTranscripts ⟨some "not json".toList, some ['h', 'i']⟩
      = Except.error PyError.jsonDecodeError := rfl
  refine ⟨h1, ?_⟩
  rw [h1]
  exact fun hc => Except.noConfusion hc

/-- C4 (amended): whenever the captions file or the transcript file is absent,
no output file is written at all — also on the exception path, which occurs
before the output file is opened; the run returns `false` whenever loading the
captions side does not raise (captions file absent, or its content parses as
JSONL).  If the transcript is absent but a present captions file has an
invalid JSON line, an exception propagates instead of `false` — still with no
output written. -/
theorem c4_theorem (cf tf : Option (List Char)) (h : cf = none ∨ tf = none) :
    writtenOutput (mergeMeetingTranscripts ⟨cf, tf⟩) = none
    ∧ (loadOk (loadCaptionsOpt cf) = true →
        mergeMeetingTranscripts ⟨cf, tf⟩ = .ok (false, none)) := by
  rcases h with h | h
  · subst h
    simp [mergeMeetingTranscripts, loadCaptionsOpt, pyMerge, writtenOutput]
  · subst h
    cases hl : loadCaptionsOpt cf with
    | error e =>
      refine ⟨?_, ?_⟩
      · simp [mergeMeetingTranscripts, hl, writtenOutput]
      · intro hc
        simp [loadOk] at hc
    | ok caps =>
      refine ⟨?_, fun _ => ?_⟩
      · simp [mergeMeetingTranscripts, hl, pyMerge, loadTranscriptOpt, writtenOutput]
      · simp [mergeMeetingTranscripts, hl, pyMerge, loadTranscriptOpt]

/-- C4 witness: captions file absent at a concrete transcript — nothing
written and `false` returned. -/
theorem c4_witness :
    writtenOutput (mergeMeetingTranscripts ⟨none, some ['h', 'i']⟩) = none
    ∧ mergeMeetingTranscripts ⟨none, some ['h', 'i']⟩ = .ok (false, none) :=
  ⟨(c4_theorem none (some ['h', 'i']) (Or.inl rfl)).1,
   (c4_theorem none (some ['h', 'i']) (Or.inl rfl)).2 (by rfl)⟩

/-- C4 counterexample: transcript file absent while the captions file holds
the invalid line `\x7b` — the run raises `JSONDecodeError` rather than
returning `false`, so the claim's universally quantified "merge returns
false" fails (no output is written even here). -/
theorem c4_counterexample :
    mergeMeetingTranscripts ⟨some ['\x7b'], none⟩ = .error .jsonDecodeError
    ∧ mergeMeetingTranscripts ⟨some ['\x7b'], none⟩ ≠ .ok (false, none) := by
  have h1 : mergeMeetingTranscripts ⟨some ['\x7b'], none⟩
      = Except.error PyError.jsonDecodeError := rfl
  refine ⟨h1, ?_⟩
  rw [h1]
  exact fun hc => Except.noConfusion hc

lemma isOk_map {α β : Type} (f : α → β) (x : Except PyError α) :
    (Except.map f x).isOk = x.isOk := by
  cases x <;> rfl

lemma mergeLoop_isOk (transcript : List Char) (tw : List (List Char)) (th : ℚ) :
    ∀ caps : List PyJson, (∀ c ∈ caps, captionOk c = true) →
      ∀ pos, (mergeLoop transcript tw th caps pos).isOk = true := by
  intro caps
  induction caps with
  | nil => exact fun _ pos => rfl
  | cons c rest ih =>
    intro hall pos
    have hc : captionOk c = true := hall c (List.mem_cons_self _ _)
    have hrest : ∀ x ∈ rest, captionOk x = true :=
      fun x hx => hall x (List.mem_cons_of_mem _ hx)
    cases c with
    | obj fl =>
      cases hot : objGetD fl textKey (.str []) with
      | str s =>
        by_cases hemp : (pyStrip s).isEmpty = true
        · simpa [mergeLoop, hot, hemp] using ih hrest pos
        · have hemp2 : (pyStrip s).isEmpty = false := by simpa using hemp
          by_cases hth : th ≤ (findBestMatch (pyStrip s) tw pos 50).2
          · simp only [mergeLoop, hot, hemp2, Bool.false_eq_true, if_false, hth,
              if_true, isOk_map]
            exact ih hrest _
          · simp only [mergeLoop, hot, hemp2, Bool.false_eq_true, if_false, hth,
              isOk_map]
            exact ih hrest _
      | null => simp [captionOk, hot] at hc
      | bool b => simp [captionOk, hot] at hc
      | int n => simp [captionOk, hot] at hc
      | float q => simp [captionOk, hot] at hc
      | arr xs => simp [captionOk, hot] at hc
      | obj gs => simp [captionOk, hot] at hc
    | null => simp [captionOk] at hc
    | bool b => simp [captionOk] at hc
    | int n => simp [captionOk] at hc
    | float q => simp [captionOk] at hc
    | str s => simp [captionOk] at hc
    | arr xs => simp [captionOk] at hc

/-- C9 (amended): provided every loaded caption is a JSON object whose
`text` member, when present, is a string, `merge` returns `true` and writes
the output file exactly when the captions list and the transcript text are
both non-empty — in particular independently of any similarity threshold, so
a run in which every caption scores below the threshold still succeeds.  (A
caption breaking the proviso instead raises `AttributeError`, see the
counterexample.) -/
theorem c9_theorem (caps : List PyJson) (t : List Char) (th : ℚ)
    (hall : ∀ c ∈ caps, captionOk c = true) :
    (successFlag (pyMerge caps t th) = true
      ↔ caps.isEmpty = false ∧ t.isEmpty = false)
    ∧ ((writtenOutput (pyMerge caps t th)).isSome = true
      ↔ caps.isEmpty = false ∧ t.isEmpty = false) := by
  by_cases hempty : (caps.isEmpty || t.isEmpty) = true
  · have hm : pyMerge caps t th = .ok (false, none) := by
      simp [pyMerge, hempty]
    rw [hm]
    have hnot : ¬ (caps.isEmpty = false ∧ t.isEmpty = false) := by
      rintro ⟨h1, h2⟩
      rw [h1, h2] at hempty
      simp at hempty
    constructor
    · exact ⟨fun hfalse => absurd hfalse (by simp [successFlag]),
        fun hrhs => absurd hrhs hnot⟩
    · exact ⟨fun hfalse => absurd hfalse (by simp [writtenOutput]),
        fun hrhs => absurd hrhs hnot⟩
  · have hok := mergeLoop_isOk t (pyWords (cleanText t)) th caps hall 0
    cases hm : mergeLoop t (pyWords (cleanText t)) th caps 0 with
    | error e =>
      rw [hm] at hok
      simp [Except.isOk, Except.toBool] at hok
    | ok segs =>
      have hpm : pyMerge caps t th = .ok (true, some (renderOutput segs)) := by
        simp [pyMerge, hempty, hm, Except.map]
      rw [hpm]
      simp only [Bool.or_eq_true, not_or, Bool.not_eq_true] at hempty
      constructor
      · exact ⟨fun _ => ⟨hempty.1, hempty.2⟩, fun _ => rfl⟩
      · exact ⟨fun _ => ⟨hempty.1, hempty.2⟩, fun _ => rfl⟩

/-- C9 witness: one well-formed caption whose best score is 0 (below the
0.6 threshold) against transcript `yo` — the merge still returns `true`. -/
theorem c9_witness :
    successFlag (pyMerge
      [PyJson.obj [(speakerKey, PyJson.str ['B']), (textKey, PyJson.str ['y', 'o'])]]
      ['y', 'o'] (mkRat 3 5)) = true :=
  ((c9_theorem _ _ _ (by decide)).1).mpr (by decide)

/-- C9 counterexample: the loaded captions list `[5]` (one valid JSON line
`5`) is non-empty and the transcript `x` is non-empty, yet `merge` does not
return `true`: it raises `AttributeError` at `caption.get`. -/
theorem c9_counterexample :
    pyMerge [PyJson.int 5] ['x'] (mkRat 3 5) = .error .attributeError
    ∧ successFlag (pyMerge [PyJson.int 5] ['x'] (mkRat 3 5)) ≠ true := by
  have h1 : pyMerge [PyJson.int 5] ['x'] (mkRat 3 5)
      = Except.error PyError.attributeError := rfl
  refine ⟨h1, ?_⟩
  rw [h1]
  exact fun hc => Bool.noConfusion hc

/-- C2: for every caption the merge loop processes (a JSON object whose
stripped string text is non-empty), with `(mp, sim)` the best match from the
current cursor: when `sim` meets the threshold, the emitted segment's text is
the span of the untouched original transcript recovered by the word-counting
walk (`matchedTextOr` = `extractMatchedText` with the code's fallback to the
caption text if the walk yields nothing), its stored confidence is `sim`, and
the cursor advances to `mp + captionWordCount`; when `sim` is below the
threshold, the caption's own text is emitted verbatim with confidence `sim`
(rendered later as the low-confidence glyph `?` whenever `sim < 0.6`) and the
cursor stays unchanged for the next caption. -/
theorem c2_theorem (transcript : List Char) (tw : List (List Char)) (th : ℚ)
    (fl : List (List Char × PyJson)) (rest : List PyJson) (pos : Nat)
    (s ct : List Char)
    (htext : objGetD fl textKey (.str []) = .str s)
    (hct : ct = pyStrip s) (hne : ct.isEmpty = false)
    (mp : Nat) (sim : ℚ)
    (hfb : findBestMatch ct tw pos 50 = (mp, sim)) :
    (th ≤ sim →
      mergeLoop transcript tw th (.obj fl :: rest) pos
        = Except.map
            (fun segs =>
              { speaker := objGetD fl speakerKey (.str unknownName),
                text := matchedTextOr transcript ct mp (captionWordCount ct),
                timestamp := objGetD fl timestampKey (.str []),
                confidence := sim } :: segs)
            (mergeLoop transcript tw th rest (mp + captionWordCount ct)))
    ∧ (¬ th ≤ sim →
      mergeLoop transcript tw th (.obj fl :: rest) pos
        = Except.map
            (fun segs =>
              { speaker := objGetD fl speakerKey (.str unknownName),
                text := ct,
                timestamp := objGetD fl timestampKey (.str []),
                confidence := sim } :: segs)
            (mergeLoop transcript tw th rest pos))
    ∧ (sim < mkRat 3 5 → confidenceIndicator sim = ['?']) := by
  subst hct
  refine ⟨fun h => ?_, fun h => ?_, fun h => ?_⟩
  · simp [mergeLoop, htext, hne, hfb, h]
  · simp [mergeLoop, htext, hne, hfb, h]
  · have h35 : ¬ mkRat 3 5 ≤ sim := not_le.mpr h
    have h45 : ¬ mkRat 4 5 ≤ sim :=
      not_le.mpr (lt_of_lt_of_le h (by norm_num [Rat.mkRat_eq_div]))
    simp [confidenceIndicator, h35, h45]

/-- C2 witness: both branches at concrete inputs — caption `Hello there`
matches transcript `Hello, there friends.` at position 0 with score 1 and the
cursor advances past the two matched words; caption `zzz qqq` scores 1/9
against `hello there friends`, is kept verbatim, and the cursor stays at 0 —
plus the low-confidence glyph at score 1/9. -/
theorem c2_witness :
    (mergeLoop "Hello, there friends.".toList
        (pyWords (cleanText "Hello, there friends.".toList)) (mkRat 3 5)
        [PyJson.obj [(speakerKey, PyJson.str ['A']),
          (textKey, PyJson.str "Hello there".toList)]] 0
      = Except.map
          (fun segs =>
            { speaker := objGetD [(speakerKey, PyJson.str ['A']),
                (textKey, PyJson.str "Hello there".toList)] speakerKey (.str unknownName),
              text := matchedTextOr "Hello, there friends.".toList
                "Hello there".toList 0 (captionWordCount "Hello there".toList),
              timestamp := objGetD [(speakerKey, PyJson.str ['A']),
                (textKey, PyJson.str "Hello there".toList)] timestampKey (.str []),
              confidence := 1 } :: segs)
          (mergeLoop "Hello, there friends.".toList
            (pyWords (cleanText "Hello, there friends.".toList)) (mkRat 3 5) []
            (0 + captionWordCount "Hello there".toList)))
    ∧ (mergeLoop "hello there friends".toList
        (pyWords (cleanText "hello there friends".toList)) (mkRat 3 5)
        [PyJson.obj [(speakerKey, PyJson.str ['A']),
          (textKey, PyJson.str "zzz qqq".toList)]] 0
      = Except.map
          (fun segs =>
            { speaker := objGetD [(speakerKey, PyJson.str ['A']),
                (textKey, PyJson.str "zzz qqq".toList)] speakerKey (.str unknownName),
              text := "zzz qqq".toList,
              timestamp := objGetD [(speakerKey, PyJson.str ['A']),
                (textKey, PyJson.str "zzz qqq".toList)] timestampKey (.str []),
              confidence := mkRat 1 9 } :: segs)
          (mergeLoop "hello there friends".toList
            (pyWords (cleanText "hello there friends".toList)) (mkRat 3 5) [] 0))
    ∧ confidenceIndicator (mkRat 1 9) = ['?'] :=
  ⟨(c2_theorem _ _ _ _ _ _ "Hello there".toList "Hello there".toList
      (by rfl) (by rfl) (by rfl) 0 1 (by rfl)).1
      (by norm_num [Rat.mkRat_eq_div]),
   (c2_theorem _ _ _ _ _ _ "zzz qqq".toList "zzz qqq".toList
      (by rfl) (by rfl) (by rfl) 0 (mkRat 1 9) (by rfl)).2.1
      (by norm_num [Rat.mkRat_eq_div]),
   ( c2_theorem "hello there friends".toList
      (pyWords (cleanText "hello there friends".toList)) (mkRat 3 5)
      [(speakerKey, PyJson.str ['A']), (textKey, PyJson.str "zzz qqq".toList)] [] 0
      "zzz qqq".toList "zzz qqq".toList
      (by rfl) (by rfl) (by rfl) 0 (mkRat 1 9) (by rfl)).2.2
      (by norm_num [Rat.mkRat_eq_div])⟩

lemma fbmFold_spec (cc : List Char) (tw : List (List Char)) (len : Nat) :
    ∀ (l : List Nat) (b : Nat × ℚ),
      b.2 ≤ (fbmFold cc tw len l b).2
      ∧ (fbmFold cc tw len l b = b
        ∨ ((fbmFold cc tw len l b).1 ∈ l
          ∧ simScore cc (sliceAt tw len (fbmFold cc tw len l b).1)
            = (fbmFold cc tw len l b).2))
      ∧ ∀ i ∈ l, simScore cc (sliceAt tw len i) ≤ (fbmFold cc tw len l b).2 := by
  intro l
  induction l with
  | nil =>
    intro b
    exact ⟨le_refl _, Or.inl rfl, by simp⟩
  | cons j l ih =>
    intro b
    have hstep : fbmFold cc tw len (j :: l) b
        = fbmFold cc tw len l
            (if b.2 < simScore cc (sliceAt tw len j)
              then (j, simScore cc (sliceAt tw len j)) else b) := by
      simp [fbmFold]
    by_cases hlt : b.2 < simScore cc (sliceAt tw len j)
    · rw [hstep, if_pos hlt]
      obtain ⟨ih1, ih2, ih3⟩ := ih (j, simScore cc (sliceAt tw len j))
      refine ⟨le_trans (le_of_lt hlt) ih1, ?_, ?_⟩
      · rcases ih2 with h | h
        · exact Or.inr ⟨by rw [h]; exact List.mem_cons_self _ _, by rw [h]⟩
        · exact Or.inr ⟨List.mem_cons_of_mem _ h.1, h.2⟩
      · intro i hi
        rcases List.mem_cons.mp hi with h | h
        · subst h
          exact ih1
        · exact ih3 i h
    · rw [hstep, if_neg hlt]
      obtain ⟨ih1, ih2, ih3⟩ := ih b
      refine ⟨ih1, ?_, ?_⟩
      · rcases ih2 with h | h
        · exact Or.inl h
        · exact Or.inr ⟨List.mem_cons_of_mem _ h.1, h.2⟩
      · intro i hi
        rcases List.mem_cons.mp hi with h | h
        · subst h
          exact le_trans (le_of_not_lt hlt) ih1
        · exact ih3 i h

/-- C5 (amended): for every caption with at least one normalized word and
every cursor, the search examines exactly the start positions
`cursor <= p < min(cursor + 50, len(transcriptWords) - captionWordLen)`; the
returned position satisfies `cursor <= p < cursor + 50`, the returned score is
an upper bound of the ratio at every examined position, and the score is
either 0 (in particular when the examined range is empty) or attained at the
returned position inside the examined range.  Because the range's upper end
excludes `len(transcriptWords) - captionWordLen`, the final valid span start
is never examined, so the returned score need not be the maximum over all
spans starting inside the 50-word window (see the counterexample). -/
theorem c5_theorem (ct : List Char) (tw : List (List Char)) (pos : Nat)
    (hcw : (pyWords (cleanText ct)).isEmpty = false) :
    pos ≤ (findBestMatch ct tw pos 50).1
    ∧ (findBestMatch ct tw pos 50).1 < pos + 50
    ∧ (∀ i, pos ≤ i →
        i < min (pos + 50) (tw.length - (pyWords (cleanText ct)).length) →
        simScore (cleanText ct) (sliceAt tw (pyWords (cleanText ct)).length i)
          ≤ (findBestMatch ct tw pos 50).2)
    ∧ ((findBestMatch ct tw pos 50).2 = 0
      ∨ (pos ≤ (findBestMatch ct tw pos 50).1
        ∧ (findBestMatch ct tw pos 50).1
            < min (pos + 50) (tw.length - (pyWords (cleanText ct)).length)
        ∧ simScore (cleanText ct)
            (sliceAt tw (pyWords (cleanText ct)).length (findBestMatch ct tw pos 50).1)
          = (findBestMatch ct tw pos 50).2)) := by
  have hunfold : findBestMatch ct tw pos 50
      = fbmFold (cleanText ct) tw (pyWords (cleanText ct)).length
          (List.range' pos
            (min (pos + 50) (tw.length - (pyWords (cleanText ct)).length) - pos))
          (pos, 0) := by
    simp [findBestMatch, hcw]
  set e := min (pos + 50) (tw.length - (pyWords (cleanText ct)).length) with he
  obtain ⟨h1, h2, h3⟩ :=
    fbmFold_spec (cleanText ct) tw (pyWords (cleanText ct)).length
      (List.range' pos (e - pos)) (pos, 0)
  rw [hunfold]
  refine ⟨?_, ?_, ?_, ?_⟩
  · rcases h2 with h | h
    · rw [h]
    · exact (List.mem_range'_1.mp h.1).1
  · rcases h2 with h | h
    · rw [h]
      omega
    · have := (List.mem_range'_1.mp h.1).2
      omega
  · intro i hip hie
    refine h3 i (List.mem_range'_1.mpr ⟨hip, ?_⟩)
    omega
  · rcases h2 with h | h
    · rw [h]
      exact Or.inl rfl
    · refine Or.inr ⟨(List.mem_range'_1.mp h.1).1, ?_, h.2⟩
      have hlow := (List.mem_range'_1.mp h.1).1
      have hhigh := (List.mem_range'_1.mp h.1).2
      omega

/-- C5 counterexample: transcript words `[b]`, caption `b`, cursor 0 — the
span at position 0 lies inside the claimed window `[0, 50)` and has ratio 1,
yet the search returns score 0 (its `end_idx` is `min(50, 1 - 1) = 0`, so no
position is examined): the returned score is not the maximum ratio over the
window. -/
theorem c5_counterexample :
    findBestMatch ['b'] [['b']] 0 50 = (0, 0)
    ∧ simScore (cleanText ['b']) (sliceAt [['b']] 1 0) = 1
    ∧ (0 : ℚ) < 1 := by
  refine ⟨rfl, rfl, ?_⟩
  norm_num

/-- C5 witness: at caption `hi`, transcript words `[hi, yo]`, cursor 0, the
examined position 0 (inside `[0, min(50, 1))`) has its ratio bounded by the
returned score. -/
theorem c5_witness :
    simScore (cleanText ['h', 'i'])
        (sliceAt [['h', 'i'], ['y', 'o']] (pyWords (cleanText ['h', 'i'])).length 0)
      ≤ (findBestMatch ['h', 'i'] [['h', 'i'], ['y', 'o']] 0 50).2 :=
  ( c5_theorem ['h', 'i'] [['h', 'i'], ['y', 'o']] 0 (by rfl)).2.2.1 0
    (Nat.le_refl 0) (by decide)

/-- No two adjacent characters are both whitespace. -/
def noConsecutiveSpaces : List Char → Bool
  | c1 :: c2 :: rest => !(isSpaceChar c1 && isSpaceChar c2) && noConsecutiveSpaces (c2 :: rest)
  | _ => true

/-- The first character, if any, is not whitespace. -/
def headNotSpace : List Char → Bool
  | [] => true
  | c :: _ => !isSpaceChar c

/-- The last character, if any, is not whitespace. -/
def lastNotSpace : List Char → Bool
  | [] => true
  | [c] => !isSpaceChar c
  | _ :: rest => lastNotSpace rest

/-- The shape `clean_text` guarantees for its output: only word characters and
single spaces, all lowercase, no leading/trailing/adjacent whitespace. -/
def cleanNormalized (l : List Char) : Bool :=
  l.all (fun c => (isWordChar c || c == ' ') && asciiLower c == c)
    && noConsecutiveSpaces l && headNotSpace l && lastNotSpace l

lemma asciiLower_idem (c : Char) : asciiLower (asciiLower c) = asciiLower c := by
  by_cases h : c ∈ ['A', 'B', 'C', 'D', 'E', 'F', 'G', 'H', 'I', 'J', 'K', 'L', 'M',
      'N', 'O', 'P', 'Q', 'R', 'S', 'T', 'U', 'V', 'W', 'X', 'Y', 'Z']
  · fin_cases h <;> rfl
  · have h1 : asciiLower c = c := by
      unfold asciiLower
      split <;> simp_all
    rw [h1]
    exact h1

lemma mem_collapseWsAux {c : Char} :
    ∀ (b : Bool) (l : List Char), c ∈ collapseWsAux b l →
      (c ∈ l ∧ isSpaceChar c = false) ∨ c = ' ' := by
  intro b l
  induction l generalizing b with
  | nil => intro h; simp [collapseWsAux] at h
  | cons d rest ih =>
    intro h
    by_cases hd : isSpaceChar d = true
    · cases b with
      | true =>
        simp only [collapseWsAux, hd, if_true] at h
        rcases ih true h with h2 | h2
        · exact Or.inl ⟨List.mem_cons_of_mem _ h2.1, h2.2⟩
        · exact Or.inr h2
      | false =>
        simp only [collapseWsAux, hd, if_true] at h
        rcases List.mem_cons.mp h with h2 | h2
        · exact Or.inr h2
        · rcases ih true h2 with h3 | h3
          · exact Or.inl ⟨List.mem_cons_of_mem _ h3.1, h3.2⟩
          · exact Or.inr h3
    · have hd' : isSpaceChar d = false := by simpa using hd
      simp only [collapseWsAux, hd', Bool.false_eq_true, if_false] at h
      rcases List.mem_cons.mp h with h2 | h2
      · subst h2
        exact Or.inl ⟨List.mem_cons_self _ _, hd'⟩
      · rcases ih false h2 with h3 | h3
        · exact Or.inl ⟨List.mem_cons_of_mem _ h3.1, h3.2⟩
        · exact Or.inr h3

lemma mem_dropTrailingSpaces {c : Char} :
    ∀ l : List Char, c ∈ dropTrailingSpaces l → c ∈ l := by
  intro l
  induction l with
  | nil => intro h; simp [dropTrailingSpaces] at h
  | cons d rest ih =>
    intro h
    simp only [dropTrailingSpaces] at h
    split at h
    · simp at h
    · rcases List.mem_cons.mp h with h2 | h2
      · exact h2 ▸ List.mem_cons_self _ _
      · exact List.mem_cons_of_mem _ (ih h2)

lemma mem_dropWhileSpaces {c : Char} (l : List Char) (p : Char → Bool)
    (h : c ∈ l.dropWhile p) : c ∈ l :=
  (List.dropWhile_sublist p).subset h

lemma mem_pyStrip {c : Char} (l : List Char) (h : c ∈ pyStrip l) : c ∈ l :=
  mem_dropWhileSpaces l isSpaceChar (mem_dropTrailingSpaces _ h)

lemma noConsec_tail {c : Char} {l : List Char}
    (h : noConsecutiveSpaces (c :: l) = true) : noConsecutiveSpaces l = true := by
  cases l with
  | nil => rfl
  | cons d rest =>
    simp only [noConsecutiveSpaces, Bool.and_eq_true] at h
    exact h.2

lemma noConsec_cons {c : Char} {l : List Char}
    (h1 : noConsecutiveSpaces l = true)
    (h2 : isSpaceChar c = false ∨ headNotSpace l = true) :
    noConsecutiveSpaces (c :: l) = true := by
  cases l with
  | nil => rfl
  | cons d rest =>
    simp only [noConsecutiveSpaces, Bool.and_eq_true]
    refine ⟨?_, h1⟩
    rcases h2 with h | h
    · simp [h]
    · simp only [headNotSpace, Bool.not_eq_true'] at h
      simp [h]

lemma headNotSpace_collapse_true :
    ∀ l : List Char, headNotSpace (collapseWsAux true l) = true := by
  intro l
  induction l with
  | nil => rfl
  | cons c rest ih =>
    by_cases hc : isSpaceChar c = true
    · simpa [collapseWsAux, hc] using ih
    · have hc' : isSpaceChar c = false := by simpa using hc
      simp [collapseWsAux, hc', headNotSpace]

lemma noConsec_collapse :
    ∀ (l : List Char) (b : Bool), noConsecutiveSpaces (collapseWsAux b l) = true := by
  intro l
  induction l with
  | nil => intro b; rfl
  | cons c rest ih =>
    intro b
    by_cases hc : isSpaceChar c = true
    · cases b with
      | true => simpa [collapseWsAux, hc] using ih true
      | false =>
        simp only [collapseWsAux, hc, if_true]
        exact noConsec_cons (ih true) (Or.inr (headNotSpace_collapse_true rest))
    · have hc' : isSpaceChar c = false := by simpa using hc
      simp only [collapseWsAux, hc', Bool.false_eq_true, if_false]
      exact noConsec_cons (ih false) (Or.inl hc')

lemma noConsec_dropWhile {l : List Char}
    (h : noConsecutiveSpaces l = true) :
    noConsecutiveSpaces (l.dropWhile isSpaceChar) = true := by
  induction l with
  | nil => exact h
  | cons c rest ih =>
    by_cases hc : isSpaceChar c = true
    · simp only [List.dropWhile_cons, hc, if_true]
      exact ih (noConsec_tail h)
    · have hc' : isSpaceChar c = false := by simpa using hc
      simpa [List.dropWhile_cons, hc'] using h

lemma headNotSpace_dropWhile (l : List Char) :
    headNotSpace (l.dropWhile isSpaceChar) = true := by
  induction l with
  | nil => rfl
  | cons c rest ih =>
    by_cases hc : isSpaceChar c = true
    · simpa [List.dropWhile_cons, hc] using ih
    · have hc' : isSpaceChar c = false := by simpa using hc
      simp [List.dropWhile_cons, hc', headNotSpace]

lemma dropTrailing_cases (c : Char) (rest : List Char) :
    dropTrailingSpaces (c :: rest) = []
      ∨ dropTrailingSpaces (c :: rest) = c :: dropTrailingSpaces rest := by
  simp only [dropTrailingSpaces]
  split
  · exact Or.inl rfl
  · exact Or.inr rfl

lemma noConsec_dropTrailing :
    ∀ l : List Char, noConsecutiveSpaces l = true →
      noConsecutiveSpaces (dropTrailingSpaces l) = true := by
  intro l
  induction l with
  | nil => intro h; exact h
  | cons c rest ih =>
    intro h
    rcases dropTrailing_cases c rest with hd | hd
    · rw [hd]; rfl
    · rw [hd]
      refine noConsec_cons (ih (noConsec_tail h)) ?_
      by_cases hc : isSpaceChar c = true
      · cases rest with
        | nil => exact Or.inr rfl
        | cons x xs =>
          simp only [noConsecutiveSpaces, Bool.and_eq_true, Bool.not_eq_true',
            Bool.and_eq_false_iff] at h
          rcases h.1 with hx | hx
          · rw [hc] at hx
            exact absurd hx (by simp)
          · rcases dropTrailing_cases x xs with hx2 | hx2
            · rw [hx2]
              exact Or.inr rfl
            · rw [hx2]
              exact Or.inr (by simp [headNotSpace, hx])
      · have hc' : isSpaceChar c = false := by simpa using hc
        exact Or.inl hc'

lemma headNotSpace_dropTrailing {l : List Char}
    (h : headNotSpace l = true) :
    headNotSpace (dropTrailingSpaces l) = true := by
  cases l with
  | nil => exact h
  | cons c rest =>
    rcases dropTrailing_cases c rest with hd | hd
    · rw [hd]; rfl
    · rw [hd]
      exact h

lemma lastNotSpace_cons {c : Char} {l : List Char} (h : l ≠ []) :
    lastNotSpace (c :: l) = lastNotSpace l := by
  cases l with
  | nil => exact absurd rfl h
  | cons d rest => rfl

lemma lastNotSpace_dropTrailing :
    ∀ l : List Char, lastNotSpace (dropTrailingSpaces l) = true := by
  intro l
  induction l with
  | nil => rfl
  | cons c rest ih =>
    simp only [dropTrailingSpaces]
    split
    · rfl
    · rename_i hcond
      by_cases hr : dropTrailingSpaces rest = []
      · have hc : isSpaceChar c = false := by
          by_cases hcs : isSpaceChar c = true
          · exact absurd (by simp [hr, hcs]) hcond
          · simpa using hcs
        simp [hr, lastNotSpace, hc]
      · rw [lastNotSpace_cons hr]
        exact ih

lemma space_not_word {c : Char} (h : isSpaceChar c = true) : isWordChar c = false := by
  simp only [isSpaceChar, Bool.or_eq_true, beq_iff_eq] at h
  rcases h with ((((h | h) | h) | h) | h) | h <;> subst h <;> rfl

lemma cleanText_chars (s : List Char) :
    ∀ c ∈ cleanText s, ((isWordChar c || c == ' ') && (asciiLower c == c)) = true := by
  intro c hc
  have hc2 : c ∈ collapseWsAux false ((s.map asciiLower).filter keepChar) :=
    mem_pyStrip _ hc
  rcases mem_collapseWsAux false _ hc2 with ⟨hmem, hns⟩ | heq
  · have hmem2 := List.mem_filter.mp hmem
    obtain ⟨x, hx, hxe⟩ := List.mem_map.mp hmem2.1
    have hword : isWordChar c = true := by
      have hk := hmem2.2
      simpa [keepChar, hns] using hk
    have hlow : asciiLower c = c := by
      rw [← hxe]
      exact asciiLower_idem x
    simp [hword, hlow]
  · subst heq
    rfl

lemma map_id_of {f : Char → Char} :
    ∀ l : List Char, (∀ c ∈ l, f c = c) → l.map f = l := by
  intro l
  induction l with
  | nil => intro _; rfl
  | cons c rest ih =>
    intro h
    simp only [List.map_cons]
    rw [h c (List.mem_cons_self _ _), ih (fun x hx => h x (List.mem_cons_of_mem _ hx))]

lemma filter_id_of {p : Char → Bool} :
    ∀ l : List Char, (∀ c ∈ l, p c = true) → l.filter p = l := by
  intro l
  induction l with
  | nil => intro _; rfl
  | cons c rest ih =>
    intro h
    simp only [List.filter_cons, h c (List.mem_cons_self _ _), if_true]
    rw [ih (fun x hx => h x (List.mem_cons_of_mem _ hx))]

lemma collapse_id :
    ∀ l : List Char, (∀ c ∈ l, isSpaceChar c = true → c = ' ') →
      noConsecutiveSpaces l = true →
      collapseWsAux false l = l
        ∧ (headNotSpace l = true → collapseWsAux true l = l) := by
  intro l
  induction l with
  | nil => exact fun _ _ => ⟨rfl, fun _ => rfl⟩
  | cons c rest ih =>
    intro hsp hnc
    have hsp' : ∀ x ∈ rest, isSpaceChar x = true → x = ' ' :=
      fun x hx => hsp x (List.mem_cons_of_mem _ hx)
    obtain ⟨ih1, ih2⟩ := ih hsp' (noConsec_tail hnc)
    by_cases hc : isSpaceChar c = true
    · have hceq : c = ' ' := hsp c (List.mem_cons_self _ _) hc
      have hhr : headNotSpace rest = true := by
        cases rest with
        | nil => rfl
        | cons x xs =>
          simp only [noConsecutiveSpaces, Bool.and_eq_true, Bool.not_eq_true',
            Bool.and_eq_false_iff] at hnc
          rcases hnc.1 with hx | hx
          · rw [hc] at hx
            exact absurd hx (by simp)
          · simp [headNotSpace, hx]
      constructor
      · simp only [collapseWsAux, hc, if_true, Bool.false_eq_true, if_false]
        rw [ih2 hhr, hceq]
      · intro hh
        simp only [headNotSpace, Bool.not_eq_true'] at hh
        rw [hh] at hc
        exact absurd hc (by simp)
    · have hc' : isSpaceChar c = false := by simpa using hc
      constructor
      · simp only [collapseWsAux, hc', Bool.false_eq_true, if_false]
        rw [ih1]
      · intro _
        simp only [collapseWsAux, hc', Bool.false_eq_true, if_false]
        rw [ih1]

lemma dropWhile_id {l : List Char} (h : headNotSpace l = true) :
    l.dropWhile isSpaceChar = l := by
  cases l with
  | nil => rfl
  | cons c rest =>
    simp only [headNotSpace, Bool.not_eq_true'] at h
    simp [List.dropWhile_cons, h]

lemma dropTrailing_cons_eq (c : Char) (rest : List Char) :
    dropTrailingSpaces (c :: rest)
      = if ((dropTrailingSpaces rest).isEmpty && isSpaceChar c) = true then []
        else c :: dropTrailingSpaces rest := rfl

lemma dropTrailing_id :
    ∀ l : List Char, lastNotSpace l = true → dropTrailingSpaces l = l := by
  intro l
  induction l with
  | nil => intro _; rfl
  | cons c rest ih =>
    intro h
    cases rest with
    | nil =>
      simp only [lastNotSpace, Bool.not_eq_true'] at h
      simp [dropTrailing_cons_eq, dropTrailingSpaces, h]
    | cons x xs =>
      rw [lastNotSpace_cons (by simp)] at h
      have hr := ih h
      rw [dropTrailing_cons_eq, hr]
      simp

/-- C10: `clean_text` is idempotent, and its output is normalized — every
character is a word character or a single space, already lowercase (on the
ASCII fragment the embedding models), with no adjacent, leading or trailing
whitespace. -/
theorem c10_theorem (s : List Char) :
    cleanText (cleanText s) = cleanText s
    ∧ cleanNormalized (cleanText s) = true := by
  have hchars := cleanText_chars s
  have hnc : noConsecutiveSpaces (cleanText s) = true := by
    unfold cleanText pyStrip collapseWs
    exact noConsec_dropTrailing _ (noConsec_dropWhile (noConsec_collapse _ false))
  have hh : headNotSpace (cleanText s) = true := by
    unfold cleanText pyStrip
    exact headNotSpace_dropTrailing (headNotSpace_dropWhile _)
  have hl : lastNotSpace (cleanText s) = true := by
    unfold cleanText pyStrip
    exact lastNotSpace_dropTrailing _
  have hsp : ∀ c ∈ cleanText s, isSpaceChar c = true → c = ' ' := by
    intro c hc hspace
    have hp := hchars c hc
    simp only [Bool.and_eq_true, Bool.or_eq_true, beq_iff_eq] at hp
    rcases hp.1 with h | h
    · rw [space_not_word hspace] at h
      exact absurd h (by simp)
    · exact h
  constructor
  · have hmap : (cleanText s).map asciiLower = cleanText s :=
      map_id_of _ (fun c hc => by
        have hp := hchars c hc
        simp only [Bool.and_eq_true, beq_iff_eq] at hp
        exact hp.2)
    have hfil : (cleanText s).filter keepChar = cleanText s :=
      filter_id_of _ (fun c hc => by
        have hp := hchars c hc
        simp only [Bool.and_eq_true, Bool.or_eq_true, beq_iff_eq] at hp
        rcases hp.1 with h | h
        · simp [keepChar, h]
        · subst h
          rfl)
    have hcol : collapseWsAux false (cleanText s) = cleanText s :=
      (collapse_id _ hsp hnc).1
    have hstrip : pyStrip (cleanText s) = cleanText s := by
      unfold pyStrip
      rw [dropWhile_id hh]
      exact dropTrailing_id _ hl
    calc cleanText (cleanText s)
        = pyStrip (collapseWsAux false
            (((cleanText s).map asciiLower).filter keepChar)) := rfl
      _ = pyStrip (collapseWsAux false (cleanText s)) := by rw [hmap, hfil]
      _ = pyStrip (cleanText s) := by rw [hcol]
      _ = cleanText s := hstrip
  · simp only [cleanNormalized, Bool.and_eq_true]
    exact ⟨⟨⟨List.all_eq_true.mpr hchars, hnc⟩, hh⟩, hl⟩
